import Mathlib

/-!
Shallow embedding of the samantha voice assistant (Python) core logic:
text/phrase matching (samantha/audio/processing.py, samantha/utils/text.py),
the energy gate of the synchronous transcription path (samantha/speech/stt.py),
and the control-loop state machines of samantha/core/loop.py (utterance
accumulation, TTS-interrupt checking, and the pending-speech queue discipline),
together with proofs of the frozen claims about them.

Modelling conventions:
- Python strings are Lean String values; most character work is done on
  List Char via String.data.  Matching is restricted to the ASCII range that
  the configured phrase lists actually use.
- Wall-clock times (time.time() floats in the source) are modelled as integer
  milliseconds, so 0.3 s becomes 300, 10 s becomes 10000, and so on.
- Module-level globals of the source (playback._last_tts_text,
  playback._last_tts_time, ...) are passed as explicit arguments.
- numpy buffers are List Int; the HTTP whisper/kokoro services are abstract
  function parameters.
-/

/-- ASCII apostrophe (character code 39), used to build string constants that
contain it. -/
def apos : Char := Char.ofNat 39

/-- Does the second character list start with the first one (exact match)? -/
def listStartsWith : List Char → List Char → Bool
  | [], _ => true
  | _ :: _, [] => false
  | a :: as, b :: bs => a == b && listStartsWith as bs

/-- Python substring test: needle in hay.  The empty needle is a substring of
everything, as in Python. -/
def isSubstr (needle : List Char) : List Char → Bool
  | [] => needle.isEmpty
  | c :: cs => listStartsWith needle (c :: cs) || isSubstr needle cs

/-- Helper for pySplit: accumulates the current word (reversed) while walking
the character list. -/
def splitWsAux : List Char → List Char → List (List Char)
  | acc, [] => if acc.isEmpty then [] else [acc.reverse]
  | acc, c :: cs =>
    if c.isWhitespace then
      if acc.isEmpty then splitWsAux [] cs else acc.reverse :: splitWsAux [] cs
    else splitWsAux (c :: acc) cs

/-- Python str.split() with no separator: split on runs of whitespace and
drop empty pieces. -/
def pySplit (s : String) : List (List Char) := splitWsAux [] s.data

/-- Python str.lower() on a character list (ASCII case folding). -/
def lowerL (l : List Char) : List Char := l.map Char.toLower

/-- Python str.strip(): drop leading and trailing whitespace. -/
def stripL (l : List Char) : List Char :=
  ((l.dropWhile Char.isWhitespace).reverse.dropWhile Char.isWhitespace).reverse

/-- INTERRUPT_WORDS from samantha/config/constants.py line 74. -/
def INTERRUPT_WORDS : List String := ["stop", "quiet", "enough", "halt"]

/-- SKIP_WORDS from samantha/config/constants.py line 75. -/
def SKIP_WORDS : List String := ["continue", "skip"]

/-- get_active_interrupt_words from samantha/audio/processing.py lines 37-47.
The module global playback._last_tts_text is the explicit first argument. -/
def get_active_interrupt_words (lastTtsText : String) : List String :=
  let ttsLower := if lastTtsText = "" then [] else lowerL lastTtsText.data
  INTERRUPT_WORDS.filter (fun w => !(isSubstr w.data ttsLower))

/-- is_skip_allowed from samantha/audio/processing.py lines 50-59. -/
def is_skip_allowed (lastTtsText : String) : Bool :=
  if lastTtsText = "" then true
  else !(SKIP_WORDS.any (fun w => isSubstr w.data (lowerL lastTtsText.data)))

/-- contains_interrupt_phrase from samantha/audio/processing.py lines 62-82.
The two source loops with early return are rendered as List.any. -/
def contains_interrupt_phrase (lastTtsText text : String) : Bool :=
  if text = "" then false
  else
    let words := pySplit text
    if INTERRUPT_WORDS.any (fun w => 2 ≤ words.count w.data) then true
    else (get_active_interrupt_words lastTtsText).any (fun w => words.contains w.data)

/-- contains_skip_phrase from samantha/audio/processing.py lines 85-95. -/
def contains_skip_phrase (lastTtsText text : String) : Bool :=
  if text = "" then false
  else if !(is_skip_allowed lastTtsText) then false
  else SKIP_WORDS.any (fun w => (pySplit text).contains w.data)

/-- is_echo from samantha/audio/processing.py lines 12-34.  nowMs stands for
time.time() and lastTtsTimeMs for playback._last_tts_time, both in integer
milliseconds.  The source float comparison
len(text_words and tts_words) / len(text_words) > 0.5 is rendered exactly as
2 * overlap > len(text_words), which is the same predicate on these integer
ranges. -/
def is_echo (lastTtsText text : String) (nowMs lastTtsTimeMs : Int) : Bool :=
  if lastTtsText = "" || text = "" then false
  else if 10000 < nowMs - lastTtsTimeMs then false
  else
    let textLower := stripL (lowerL text.data)
    let ttsLower := stripL (lowerL lastTtsText.data)
    if isSubstr textLower ttsLower || isSubstr ttsLower textLower then true
    else
      let textWords := (splitWsAux [] textLower).dedup
      let ttsWords := (splitWsAux [] ttsLower).dedup
      if 3 < textWords.length then
        decide (textWords.length <
          2 * (textWords.filter (fun w => ttsWords.contains w)).length)
      else false

/-- Default of get_min_audio_energy from samantha/config/settings.py
lines 77-97. -/
def DEFAULT_MIN_AUDIO_ENERGY : Int := 1500

/-- np.max(np.abs(audio_data)) for a (nonempty) int16 buffer. -/
def npMaxAbs (audioData : List Int) : Int :=
  (audioData.map (fun x => |x|)).foldl max 0

/-- transcribe_audio_sync from samantha/speech/stt.py lines 38-65.  The
normalization plus whisper HTTP call that run after the energy gate are
abstracted into the service parameter; the Bool result records whether the
transcription service was invoked at all. -/
def transcribe_audio_sync (service : List Int → Option String)
    (minEnergy : Int) (audioData : List Int) : Option String × Bool :=
  if npMaxAbs audioData < minEnergy then (none, false)
  else (service audioData, true)

/-- Outcome of one webrtcvad.is_speech call: a boolean decision, or an
exception raised by the underlying library. -/
inductive VadOutcome where
  | speech
  | nonSpeech
  | failure
deriving DecidableEq

/-- Speech decision of the normal listening branch, samantha/core/loop.py
lines 227-237: with no detector every frame counts as speech; a detector
exception also counts as speech. -/
def vadListening {α : Type} (detector : Option (α → VadOutcome)) (frame : α) : Bool :=
  match detector with
  | none => true
  | some d =>
    match d frame with
    | .speech => true
    | .nonSpeech => false
    | .failure => true

/-- Speech decision of the TTS-interrupt branch, samantha/core/loop.py
lines 144-152: is_speech_chunk starts False, so with no detector every frame
counts as non-speech; a detector exception also counts as non-speech. -/
def vadTtsBranch {α : Type} (detector : Option (α → VadOutcome)) (frame : α) : Bool :=
  match detector with
  | none => false
  | some d =>
    match d frame with
    | .speech => true
    | .nonSpeech => false
    | .failure => false

/-- Python regex word character test, restricted to the ASCII range used by
the configured phrase lists. -/
def isWordChar (c : Char) : Bool := c.isAlphanum || c == '_'

/-- Scan for the first occurrence of the closing character, failing at a
newline (the dot of the non-greedy group in WHISPER_SOUND_PATTERN does not
match newlines).  Returns the remainder after the closing character. -/
def findCloseBefore (close : Char) : List Char → Option (List Char)
  | [] => none
  | c :: cs =>
    if c == '\n' then none
    else if c == close then some cs
    else findCloseBefore close cs

/-- WHISPER_SOUND_PATTERN.sub(empty, text) for the pattern
bracket-group | paren-group | note-run from samantha/config/constants.py
line 82, with leftmost-first alternation and non-greedy groups.  The fuel
argument (always at least the input length) makes the recursion structural;
every step consumes at least one character. -/
def stripSoundsFuel : Nat → List Char → List Char
  | 0, l => l
  | _ + 1, [] => []
  | fuel + 1, c :: cs =>
    if c == '[' then
      match findCloseBefore ']' cs with
      | some rest => stripSoundsFuel fuel rest
      | none => c :: stripSoundsFuel fuel cs
    else if c == '(' then
      match findCloseBefore ')' cs with
      | some rest => stripSoundsFuel fuel rest
      | none => c :: stripSoundsFuel fuel cs
    else if c == '♪' then stripSoundsFuel fuel cs
    else c :: stripSoundsFuel fuel cs

/-- Substitution of WHISPER_SOUND_PATTERN by the empty string. -/
def stripSounds (l : List Char) : List Char := stripSoundsFuel l.length l

/-- Collapsing of whitespace runs to single spaces,
re.sub(whitespace-run, one space, s).  The Bool argument records whether the
previous character was part of a whitespace run. -/
def collapseWsAux : Bool → List Char → List Char
  | _, [] => []
  | prevWs, c :: cs =>
    if c.isWhitespace then
      if prevWs then collapseWsAux true cs else ' ' :: collapseWsAux true cs
    else c :: collapseWsAux false cs

/-- re.sub of whitespace runs by a single space. -/
def collapseWs (l : List Char) : List Char := collapseWsAux false l

/-- sanitize_whisper_text from samantha/utils/text.py lines 89-107: strip
sound annotations, delete characters that are not word characters, whitespace
or apostrophes, collapse whitespace, strip, lowercase. -/
def sanitize_whisper_text (text : String) : String :=
  if text = "" then ""
  else
    let cleaned := stripSounds text.data
    let cleaned := cleaned.filter (fun c => isWordChar c || c.isWhitespace || c == apos)
    String.mk (lowerL (stripL (collapseWs cleaned)))

/-- Case-insensitive match of one literal word at the head of the input;
returns the remainder after the word. -/
def matchWordCI : List Char → List Char → Option (List Char)
  | [], rest => some rest
  | _ :: _, [] => none
  | w :: ws, c :: cs => if w.toLower == c.toLower then matchWordCI ws cs else none

/-- Match of a wake-word pattern at the head of the input: the words of the
wake word joined by greedy non-word-character gaps, as built in clean_command
(samantha/utils/text.py line 54).  Because every wake word starts with a word
character, the greedy gap deterministically consumes the maximal run of
non-word characters. -/
def matchWakeWords : List (List Char) → List Char → Bool
  | [], _ => true
  | [w], s => (matchWordCI w s).isSome
  | w :: ws, s =>
    match matchWordCI w s with
    | none => false
    | some rest => matchWakeWords ws (rest.dropWhile (fun c => !isWordChar c))

/-- re.search for a wake-word pattern: the suffix starting at the leftmost
match position, if any. -/
def searchWakeSuffix (ws : List (List Char)) : List Char → Option (List Char)
  | [] => if matchWakeWords ws [] then some [] else none
  | c :: cs =>
    if matchWakeWords ws (c :: cs) then some (c :: cs) else searchWakeSuffix ws cs

/-- The wake-word trimming loop of clean_command (samantha/utils/text.py
lines 53-58): for the first wake word (in the given order) whose pattern
occurs, keep the suffix from the match start and strip it; then stop. -/
def trimBeforeWake : List String → List Char → List Char
  | [], cleaned => cleaned
  | ww :: rest, cleaned =>
    match searchWakeSuffix (splitWsAux [] ww.data) cleaned with
    | some suffix => stripL suffix
    | none => trimBeforeWake rest cleaned

/-- Match of one stop-phrase alternative at the head of the input: the words
of the phrase joined by greedy one-or-more-whitespace gaps (samantha/utils/
text.py line 61).  Returns the remainder after the phrase.  Every phrase word
starts with a letter, so the greedy whitespace gap is deterministic. -/
def matchPhraseWords : List (List Char) → List Char → Option (List Char)
  | [], s => some s
  | [w], s => matchWordCI w s
  | w :: ws, s =>
    match matchWordCI w s with
    | none => none
    | some rest =>
      match rest with
      | [] => none
      | c :: _ =>
        if c.isWhitespace then matchPhraseWords ws (rest.dropWhile Char.isWhitespace)
        else none

/-- First stop-phrase alternative (in list order) matching at the head of the
input, as in a regex alternation; returns the remainder after the match. -/
def firstStopAlt (phrases : List (List (List Char))) (s : List Char) : Option (List Char) :=
  match phrases with
  | [] => none
  | p :: ps =>
    match matchPhraseWords p s with
    | some rem => some rem
    | none => firstStopAlt ps s

/-- re.search for the stop-phrase alternation followed by truncation at
match.end (samantha/utils/text.py lines 63-65): the input up to and including
the leftmost stop-phrase occurrence, if any. -/
def stopTruncate (phrases : List (List (List Char))) : List Char → Option (List Char)
  | [] => none
  | c :: cs =>
    match firstStopAlt phrases (c :: cs) with
    | some rem => some (List.take ((c :: cs).length - rem.length) (c :: cs))
    | none => (stopTruncate phrases cs).map (fun t => c :: t)

/-- DEFAULT_WAKE_WORDS from samantha/config/constants.py lines 21-41
(get_wake_words returns these when no custom configuration is present). -/
def DEFAULT_WAKE_WORDS : List String :=
  ["samantha", "hey samantha", "hi samantha", "hello samantha", "ok samantha",
   "okay samantha", "samanta", "samanthia", "samansa", "cemantha", "somantha",
   "semantha", "hey sam", "hi sam", "hello sam", "ok sam", "okay sam",
   "a samantha", "the samantha"]

/-- STOP_PHRASES from samantha/config/constants.py lines 43-57. -/
def STOP_PHRASES : List String :=
  ["stop recording", "end recording", "finish recording", "that is all",
   "that" ++ String.singleton apos ++ "s all", "thats all", "over and out",
   "over out", "send message", "send it", "samantha stop", "samantha send",
   "samantha done"]

/-- Stable insertion for sorting by length in decreasing order: x is placed
before the first element that is not longer than x, so elements of equal
length keep their relative order when the whole list is built with foldr. -/
def insertByLen (x : String) : List String → List String
  | [] => [x]
  | y :: ys => if y.length ≤ x.length then x :: y :: ys else y :: insertByLen x ys

/-- sorted(words, key=len, reverse=True): Python sorted is stable; foldr with
stable insertion reproduces it. -/
def sortByLenDesc (l : List String) : List String := l.foldr insertByLen []

/-- clean_command from samantha/utils/text.py lines 49-68: strip sound
annotations and whitespace, trim everything before the first wake-word match
(wake words tried longest first), truncate after the first stop-phrase match
(inclusive), collapse whitespace and strip. -/
def clean_command (text : String) : String :=
  let cleaned := stripL (stripSounds text.data)
  let cleaned := trimBeforeWake (sortByLenDesc DEFAULT_WAKE_WORDS) cleaned
  let cleaned :=
    match stopTruncate (STOP_PHRASES.map (fun p => splitWsAux [] p.data)) cleaned with
    | some t => t
    | none => cleaned
  String.mk (stripL (collapseWs cleaned))

/-- The utterance of claim C4, with its bracketed sound tag and its
apostrophe. -/
def c4Utterance : String :=
  "uh [music] hey samantha turn on dark mode that" ++ String.singleton apos ++ "s all"

/-- The expected clean_command output of claim C4. -/
def c4Expected : String :=
  "hey samantha turn on dark mode that" ++ String.singleton apos ++ "s all"

/-- VAD_CHUNK_DURATION_MS from samantha/core/loop.py line 63. -/
def VAD_CHUNK_DURATION_MS : Int := 30

/-- SILENCE_THRESHOLD_MS from samantha/core/loop.py line 64. -/
def SILENCE_THRESHOLD_MS : Int := 1000

/-- MIN_RECORDING_DURATION (0.3 s) from samantha/core/loop.py line 65, in
milliseconds. -/
def MIN_RECORDING_DURATION_MS : Int := 300

/-- INITIAL_SILENCE_GRACE_PERIOD (1.0 s) from samantha/core/loop.py line 66,
in milliseconds. -/
def INITIAL_SILENCE_GRACE_PERIOD_MS : Int := 1000

/-- The per-utterance accumulator state of the normal listening branch of
samantha_loop_thread (samantha/core/loop.py lines 76-81): the speech_detected
flag, recording_start, silence_duration_ms and the audio_chunks buffer
(modelled by its length, since end-of-utterance detection only depends on the
number of 30 ms chunks). -/
structure ListenState where
  speechDetected : Bool
  recordingStartMs : Int
  silenceDurationMs : Int
  audioChunks : Nat
deriving DecidableEq

/-- One frame of the normal listening branch, samantha/core/loop.py
lines 219-296: the chunk is appended, then classified; on speech onset the
buffer restarts from this chunk; while recording, silence accumulates in
30 ms steps and the utterance ends (the returned Bool) exactly when the
minimum recording duration, the silence threshold and the initial grace
period are all reached; the accumulator then resets.  The rolling-window trim
of the inactive state (lines 222-225) does not affect end-of-utterance
detection and is not modelled. -/
def listenStep (s : ListenState) (isSpeech : Bool) (nowMs : Int) : ListenState × Bool :=
  if !s.speechDetected then
    if isSpeech then
      ({ speechDetected := true, recordingStartMs := nowMs,
         silenceDurationMs := 0, audioChunks := 1 }, false)
    else ({ s with audioChunks := s.audioChunks + 1 }, false)
  else
    if isSpeech then
      ({ s with audioChunks := s.audioChunks + 1, silenceDurationMs := 0 }, false)
    else
      let sil := s.silenceDurationMs + VAD_CHUNK_DURATION_MS
      let dur := nowMs - s.recordingStartMs
      if MIN_RECORDING_DURATION_MS ≤ dur ∧ SILENCE_THRESHOLD_MS ≤ sil ∧
          INITIAL_SILENCE_GRACE_PERIOD_MS ≤ dur then
        ({ s with speechDetected := false, silenceDurationMs := 0, audioChunks := 0 }, true)
      else ({ s with audioChunks := s.audioChunks + 1, silenceDurationMs := sil }, false)

/-- One frame of the TTS-interrupt branch, samantha/core/loop.py
lines 139-189: a frame is appended to the interrupt-check buffer only when
classified as speech; the buffer is transcribed and checked (the returned
Bool) exactly when the accumulated speech-only duration reaches 300 ms and at
least 2000 ms have elapsed since playback start; the buffer then resets.
ttsStartMs stands for playback._tts_start_time, including its zero-means-idle
convention (line 158). -/
def ttsInterruptStep (audioChunks : Nat) (isSpeechChunk : Bool)
    (ttsStartMs nowMs : Int) : Nat × Bool :=
  let chunks := if isSpeechChunk then audioChunks + 1 else audioChunks
  let accumulatedMs : Int := (chunks : Int) * VAD_CHUNK_DURATION_MS
  let ttsElapsed : Int := if 0 < ttsStartMs then nowMs - ttsStartMs else 0
  if 300 ≤ accumulatedMs ∧ 2000 ≤ ttsElapsed then (0, true) else (chunks, false)

/-- Events acting on the pending-speech queue: samantha_speak appends
(samantha/tools/samantha_tools.py lines 203-221), the control loop dequeues
when idle (samantha/core/loop.py lines 104-108), the playback thread
completes (lines 124-137), and the interrupt-check branch interrupts or
skips (lines 164-189). -/
inductive TtsEvent where
  | speak (text : String)
  | dequeue
  | complete
  | interrupt
  | skip
deriving DecidableEq

/-- The pending-speech queue discipline of the source, with each queued text
tagged by its enqueue sequence number: _tts_text_queue, the _tts_playing item
(at most one, hence an Option), and the list of items whose playback ran to
completion, in order. -/
structure TtsQueueState where
  nextId : Nat
  queue : List (Nat × String)
  playing : Option (Nat × String)
  spoken : List (Nat × String)
deriving DecidableEq

/-- Transition function of the pending-speech queue discipline.  speak
appends at the tail; dequeue pops the head only when nothing is playing;
complete finishes the playing item; interrupt clears the whole queue and
stops playback; skip stops playback and leaves the queue intact.  interrupt
and skip fire only from the branch guarded by _tts_playing, so they are
no-ops when nothing is playing. -/
def ttsStep (s : TtsQueueState) : TtsEvent → TtsQueueState
  | .speak t => { s with queue := s.queue ++ [(s.nextId, t)], nextId := s.nextId + 1 }
  | .dequeue =>
    match s.playing, s.queue with
    | none, x :: rest => { s with playing := some x, queue := rest }
    | _, _ => s
  | .complete =>
    match s.playing with
    | some x => { s with spoken := s.spoken ++ [x], playing := none }
    | none => s
  | .interrupt =>
    match s.playing with
    | some _ => { s with queue := [], playing := none }
    | none => s
  | .skip =>
    match s.playing with
    | some _ => { s with playing := none }
    | none => s

/-- Run of the queue discipline over a list of events. -/
def ttsRun (s : TtsQueueState) (evs : List TtsEvent) : TtsQueueState :=
  evs.foldl ttsStep s

/-- Initial state: empty queue, nothing playing, nothing spoken
(samantha/audio/playback.py lines 20-26). -/
def ttsInit : TtsQueueState := ⟨0, [], none, []⟩

/-- Enqueue sequence numbers of a list of queue items. -/
def ids (l : List (Nat × String)) : List Nat := l.map Prod.fst

/-- An id that is gone for good: not pending, not playing, not spoken, and
below the next fresh id (so it can never be enqueued again). -/
def TtsDead (x : Nat) (s : TtsQueueState) : Prop :=
  x ∉ ids s.queue ∧ (∀ p, s.playing = some p → p.1 ≠ x) ∧
    x ∉ ids s.spoken ∧ x < s.nextId

/-- Invariant of the queue discipline: ids increase along spoken and along
the queue, everything spoken precedes the playing item, which precedes
everything queued, and all ids are below nextId. -/
structure TtsInv (s : TtsQueueState) : Prop where
  spokenSorted : List.Sorted (· < ·) (ids s.spoken)
  queueSorted : List.Sorted (· < ·) (ids s.queue)
  spokenLtQueue : ∀ a ∈ ids s.spoken, ∀ b ∈ ids s.queue, a < b
  spokenLtPlaying : ∀ p, s.playing = some p → ∀ a ∈ ids s.spoken, a < p.1
  playingLtQueue : ∀ p, s.playing = some p → ∀ b ∈ ids s.queue, p.1 < b
  spokenLtNext : ∀ a ∈ ids s.spoken, a < s.nextId
  queueLtNext : ∀ b ∈ ids s.queue, b < s.nextId
  playingLtNext : ∀ p, s.playing = some p → p.1 < s.nextId


theorem ids_append (l1 l2 : List (Nat × String)) : ids (l1 ++ l2) = ids l1 ++ ids l2 :=
  List.map_append _ _ _

theorem mem_ids_append {x : Nat} {l1 l2 : List (Nat × String)} :
    x ∈ ids (l1 ++ l2) ↔ x ∈ ids l1 ∨ x ∈ ids l2 := by
  rw [ids_append]; exact List.mem_append

theorem ids_cons (x : Nat × String) (l : List (Nat × String)) :
    ids (x :: l) = x.1 :: ids l := rfl

theorem mem_ids_singleton {x : Nat} {y : Nat × String} : x ∈ ids [y] ↔ x = y.1 := by
  simp [ids]

theorem sorted_append_singleton {l : List Nat} {x : Nat}
    (hl : List.Sorted (· < ·) l) (hx : ∀ a ∈ l, a < x) :
    List.Sorted (· < ·) (l ++ [x]) := by
  refine List.pairwise_append.mpr ⟨hl, List.pairwise_singleton _ _, ?_⟩
  intro a ha b hb
  rw [List.mem_singleton] at hb
  exact hb ▸ hx a ha

theorem sorted_ids_append_singleton {l : List (Nat × String)} {y : Nat × String}
    (hl : List.Sorted (· < ·) (ids l)) (hx : ∀ a ∈ ids l, a < y.1) :
    List.Sorted (· < ·) (ids (l ++ [y])) := by
  rw [ids_append]
  exact sorted_append_singleton hl hx

theorem ttsInv_init : TtsInv ttsInit := by
  constructor <;> simp [ttsInit, ids]

theorem ttsInv_step {s : TtsQueueState} (e : TtsEvent) (h : TtsInv s) :
    TtsInv (ttsStep s e) := by
  obtain ⟨hss, hqs, hsq, hsp, hpq, hsn, hqn, hpn⟩ := h
  obtain ⟨n, q, pl, sp⟩ := s
  dsimp only at hss hqs hsq hsp hpq hsn hqn hpn
  cases e with
  | speak t =>
    simp only [ttsStep]
    refine ⟨hss, sorted_ids_append_singleton hqs hqn, ?_, ?_, ?_, ?_, ?_, ?_⟩ <;> dsimp only
    · intro a ha b hb
      rcases mem_ids_append.mp hb with hb | hb
      · exact hsq a ha b hb
      · exact (mem_ids_singleton.mp hb) ▸ hsn a ha
    · intro p hp a ha
      exact hsp p hp a ha
    · intro p hp b hb
      rcases mem_ids_append.mp hb with hb | hb
      · exact hpq p hp b hb
      · exact (mem_ids_singleton.mp hb) ▸ hpn p hp
    · exact fun a ha => Nat.lt_succ_of_lt (hsn a ha)
    · intro b hb
      rcases mem_ids_append.mp hb with hb | hb
      · exact Nat.lt_succ_of_lt (hqn b hb)
      · exact (mem_ids_singleton.mp hb) ▸ Nat.lt_succ_self n
    · exact fun p hp => Nat.lt_succ_of_lt (hpn p hp)
  | dequeue =>
    cases pl with
    | some p =>
      simp only [ttsStep]
      exact ⟨hss, hqs, hsq, hsp, hpq, hsn, hqn, hpn⟩
    | none =>
      cases q with
      | nil =>
        simp only [ttsStep]
        exact ⟨hss, hqs, hsq, hsp, hpq, hsn, hqn, hpn⟩
      | cons y rest =>
        simp only [ttsStep]
        rw [ids_cons] at hqs
        have hrest : List.Sorted (· < ·) (ids rest) := (List.sorted_cons.mp hqs).2
        have hyb : ∀ b ∈ ids rest, y.1 < b := (List.sorted_cons.mp hqs).1
        refine ⟨hss, hrest, ?_, ?_, ?_, hsn, ?_, ?_⟩ <;> dsimp only
        · intro a ha b hb
          exact hsq a ha b (by rw [ids_cons]; exact List.mem_cons_of_mem _ hb)
        · intro p hp a ha
          obtain rfl : y = p := by injection hp
          exact hsq a ha y.1 (by rw [ids_cons]; exact List.mem_cons_self _ _)
        · intro p hp b hb
          obtain rfl : y = p := by injection hp
          exact hyb b hb
        · intro b hb
          exact hqn b (by rw [ids_cons]; exact List.mem_cons_of_mem _ hb)
        · intro p hp
          obtain rfl : y = p := by injection hp
          exact hqn y.1 (by rw [ids_cons]; exact List.mem_cons_self _ _)
  | complete =>
    cases pl with
    | none =>
      simp only [ttsStep]
      exact ⟨hss, hqs, hsq, hsp, hpq, hsn, hqn, hpn⟩
    | some y =>
      simp only [ttsStep]
      refine ⟨?_, hqs, ?_, ?_, ?_, ?_, hqn, ?_⟩ <;> dsimp only
      · exact sorted_ids_append_singleton hss (hsp y rfl)
      · intro a ha b hb
        rcases mem_ids_append.mp ha with ha | ha
        · exact hsq a ha b hb
        · exact (mem_ids_singleton.mp ha) ▸ hpq y rfl b hb
      · intro p hp; cases hp
      · intro p hp; cases hp
      · intro a ha
        rcases mem_ids_append.mp ha with ha | ha
        · exact hsn a ha
        · exact (mem_ids_singleton.mp ha) ▸ hpn y rfl
      · intro p hp; cases hp
  | interrupt =>
    cases pl with
    | none =>
      simp only [ttsStep]
      exact ⟨hss, hqs, hsq, hsp, hpq, hsn, hqn, hpn⟩
    | some y =>
      simp only [ttsStep]
      refine ⟨hss, ?_, ?_, ?_, ?_, hsn, ?_, ?_⟩ <;> dsimp only
      · exact List.sorted_nil
      · intro a ha b hb; cases hb
      · intro p hp; cases hp
      · intro p hp; cases hp
      · intro b hb; cases hb
      · intro p hp; cases hp
  | skip =>
    cases pl with
    | none =>
      simp only [ttsStep]
      exact ⟨hss, hqs, hsq, hsp, hpq, hsn, hqn, hpn⟩
    | some y =>
      simp only [ttsStep]
      refine ⟨hss, hqs, hsq, ?_, ?_, hsn, hqn, ?_⟩ <;> dsimp only <;>
        intro p hp <;> cases hp

theorem ttsRun_nil (s : TtsQueueState) : ttsRun s [] = s := rfl

theorem ttsRun_cons (s : TtsQueueState) (e : TtsEvent) (evs : List TtsEvent) :
    ttsRun s (e :: evs) = ttsRun (ttsStep s e) evs := rfl

theorem ttsInv_run (evs : List TtsEvent) : TtsInv (ttsRun ttsInit evs) := by
  suffices h : ∀ (l : List TtsEvent) (s : TtsQueueState), TtsInv s → TtsInv (ttsRun s l) from
    h evs ttsInit ttsInv_init
  intro l
  induction l with
  | nil => exact fun s hs => hs
  | cons e rest ih =>
    intro s hs
    rw [ttsRun_cons]
    exact ih (ttsStep s e) (ttsInv_step e hs)

theorem ttsDead_step {x : Nat} {s : TtsQueueState} (e : TtsEvent) (h : TtsDead x s) :
    TtsDead x (ttsStep s e) := by
  obtain ⟨hq, hp, hs, hn⟩ := h
  obtain ⟨n, q, pl, sp⟩ := s
  dsimp only [TtsDead] at hq hp hs hn ⊢
  cases e with
  | speak t =>
    simp only [ttsStep]
    refine ⟨?_, hp, hs, Nat.lt_succ_of_lt hn⟩
    intro hmem
    rcases mem_ids_append.mp hmem with hmem | hmem
    · exact hq hmem
    · exact absurd (mem_ids_singleton.mp hmem) (Nat.ne_of_lt hn)
  | dequeue =>
    cases pl with
    | some p =>
      simp only [ttsStep]
      exact ⟨hq, hp, hs, hn⟩
    | none =>
      cases q with
      | nil =>
        simp only [ttsStep]
        exact ⟨hq, hp, hs, hn⟩
      | cons y rest =>
        simp only [ttsStep]
        refine ⟨?_, ?_, hs, hn⟩
        · intro hmem
          exact hq (by rw [ids_cons]; exact List.mem_cons_of_mem _ hmem)
        · intro p hpeq hyx
          obtain rfl : y = p := by injection hpeq
          exact hq (by rw [ids_cons, hyx]; exact List.mem_cons_self _ _)
  | complete =>
    cases pl with
    | none =>
      simp only [ttsStep]
      exact ⟨hq, hp, hs, hn⟩
    | some y =>
      simp only [ttsStep]
      refine ⟨hq, ?_, ?_, hn⟩
      · intro p hpeq; cases hpeq
      · intro hmem
        rcases mem_ids_append.mp hmem with hmem | hmem
        · exact hs hmem
        · exact hp y rfl (mem_ids_singleton.mp hmem).symm
  | interrupt =>
    cases pl with
    | none =>
      simp only [ttsStep]
      exact ⟨hq, hp, hs, hn⟩
    | some y =>
      simp only [ttsStep]
      refine ⟨?_, ?_, hs, hn⟩
      · intro hmem; cases hmem
      · intro p hpeq; cases hpeq
  | skip =>
    cases pl with
    | none =>
      simp only [ttsStep]
      exact ⟨hq, hp, hs, hn⟩
    | some y =>
      simp only [ttsStep]
      refine ⟨hq, ?_, hs, hn⟩
      intro p hpeq; cases hpeq

theorem ttsDead_run {x : Nat} (evs : List TtsEvent) {s : TtsQueueState}
    (h : TtsDead x s) : TtsDead x (ttsRun s evs) := by
  induction evs generalizing s with
  | nil => exact h
  | cons e rest ih =>
    rw [ttsRun_cons]
    exact ih (ttsDead_step e h)

theorem ttsStep_speak (s : TtsQueueState) (t : String) :
    ttsStep s (.speak t) =
      { s with queue := s.queue ++ [(s.nextId, t)], nextId := s.nextId + 1 } := rfl

theorem ttsStep_dequeue_cons {s : TtsQueueState} {x : Nat × String}
    {rest : List (Nat × String)} (h1 : s.playing = none) (h2 : s.queue = x :: rest) :
    ttsStep s .dequeue = { s with playing := some x, queue := rest } := by
  obtain ⟨n, q, pl, sp⟩ := s
  dsimp only at h1 h2
  subst h1; subst h2
  rfl

theorem ttsStep_dequeue_playing {s : TtsQueueState} {p : Nat × String}
    (h : s.playing = some p) : ttsStep s .dequeue = s := by
  obtain ⟨n, q, pl, sp⟩ := s
  dsimp only at h
  subst h
  cases q <;> rfl

theorem ttsStep_interrupt_some {s : TtsQueueState} {p : Nat × String}
    (h : s.playing = some p) :
    ttsStep s .interrupt = { s with queue := [], playing := none } := by
  obtain ⟨n, q, pl, sp⟩ := s
  dsimp only at h
  subst h
  rfl

theorem ttsStep_skip_some {s : TtsQueueState} {p : Nat × String}
    (h : s.playing = some p) : ttsStep s .skip = { s with playing := none } := by
  obtain ⟨n, q, pl, sp⟩ := s
  dsimp only at h
  subst h
  rfl

theorem ttsStep_skip_none {s : TtsQueueState} (h : s.playing = none) :
    ttsStep s .skip = s := by
  obtain ⟨n, q, pl, sp⟩ := s
  dsimp only at h
  subst h
  rfl

/-- Claim C2: queued TTS texts are spoken in strict FIFO order.  In every
state reachable from the initial empty state: speak appends at the tail of
the pending queue with a fresh sequence number; when nothing is playing the
loop dequeues exactly the head; while an item is playing, dequeue is a no-op
(so at most one playback runs at a time); the sequence numbers of completed
playbacks are strictly increasing, so items complete in enqueue order; an
interrupt during playback empties the pending queue and no item that was
pending at that moment is ever spoken in any continuation; a skip leaves the
pending queue intact and in order. -/
theorem C2_queue_fifo (evs : List TtsEvent) :
    (∀ t, (ttsStep (ttsRun ttsInit evs) (.speak t)).queue =
        (ttsRun ttsInit evs).queue ++ [((ttsRun ttsInit evs).nextId, t)]) ∧
    (∀ x rest, (ttsRun ttsInit evs).playing = none →
        (ttsRun ttsInit evs).queue = x :: rest →
        (ttsStep (ttsRun ttsInit evs) .dequeue).playing = some x ∧
        (ttsStep (ttsRun ttsInit evs) .dequeue).queue = rest) ∧
    (∀ p, (ttsRun ttsInit evs).playing = some p →
        ttsStep (ttsRun ttsInit evs) .dequeue = ttsRun ttsInit evs) ∧
    List.Sorted (· < ·) (ids (ttsRun ttsInit evs).spoken) ∧
    (∀ p, (ttsRun ttsInit evs).playing = some p →
        (ttsStep (ttsRun ttsInit evs) .interrupt).queue = [] ∧
        ∀ x ∈ ids (ttsRun ttsInit evs).queue, ∀ evs2,
          x ∉ ids (ttsRun (ttsStep (ttsRun ttsInit evs) .interrupt) evs2).spoken) ∧
    (ttsStep (ttsRun ttsInit evs) .skip).queue = (ttsRun ttsInit evs).queue := by
  have hinv := ttsInv_run evs
  refine ⟨?_, ?_, ?_, hinv.spokenSorted, ?_, ?_⟩
  · intro t
    rw [ttsStep_speak]
  · intro x rest h1 h2
    rw [ttsStep_dequeue_cons h1 h2]
    exact ⟨rfl, rfl⟩
  · intro p hp
    exact ttsStep_dequeue_playing hp
  · intro p hp
    refine ⟨by rw [ttsStep_interrupt_some hp], ?_⟩
    intro x hx evs2
    have hdead : TtsDead x (ttsStep (ttsRun ttsInit evs) .interrupt) := by
      rw [ttsStep_interrupt_some hp]
      refine ⟨?_, ?_, ?_, ?_⟩
      · intro hmem; cases hmem
      · intro p2 hp2; cases hp2
      · intro hmem
        exact absurd (hinv.spokenLtQueue x hmem x hx) (lt_irrefl x)
      · exact hinv.queueLtNext x hx
    exact (ttsDead_run evs2 hdead).2.2.1
  · cases hpl : (ttsRun ttsInit evs).playing with
    | none => rw [ttsStep_skip_none hpl]
    | some p => rw [ttsStep_skip_some hpl]

/-- Witness for C2 at a concrete trace: enqueue two texts, start the first,
interrupt; the second text (sequence number 1) is never spoken in a
continuation that enqueues, plays and completes a third text. -/
theorem C2_queue_fifo_witness :
    1 ∉ ids (ttsRun (ttsStep (ttsRun ttsInit
        [.speak "alpha", .speak "beta", .dequeue]) .interrupt)
      [.speak "gamma", .dequeue, .complete]).spoken :=
  ((C2_queue_fifo [.speak "alpha", .speak "beta", .dequeue]).2.2.2.2.1
      (0, "alpha") (by decide)).2 1 (by decide)
    [.speak "gamma", .dequeue, .complete]

theorem contains_eq_mem {l : List (List Char)} {a : List Char} :
    l.contains a = true ↔ a ∈ l := by
  rw [List.contains]
  exact List.elem_iff

/-- Claim C1: contains_interrupt_phrase holds exactly when either some
configured interrupt word occurs at least twice among the whitespace-split
words of the (pre-sanitized) text, regardless of the TTS text, or some
interrupt word that is not a substring of the lowercased current TTS text
occurs as a whole word of the text. -/
theorem C1_interrupt_words (lastTtsText text : String) :
    contains_interrupt_phrase lastTtsText text = true ↔
      ((∃ w ∈ INTERRUPT_WORDS, 2 ≤ (pySplit text).count w.data) ∨
       (∃ w ∈ INTERRUPT_WORDS, isSubstr w.data (lowerL lastTtsText.data) = false ∧
          w.data ∈ pySplit text)) := by
  have hlet : (if lastTtsText = "" then ([] : List Char) else lowerL lastTtsText.data)
      = lowerL lastTtsText.data := by
    by_cases h : lastTtsText = ""
    · subst h; rfl
    · rw [if_neg h]
  unfold contains_interrupt_phrase get_active_interrupt_words
  rw [hlet]
  by_cases ht : text = ""
  · subst ht
    have hsplit : pySplit "" = [] := rfl
    simp [hsplit]
  · rw [if_neg ht]
    by_cases hc : INTERRUPT_WORDS.any (fun w => decide (2 ≤ (pySplit text).count w.data)) = true
    · rw [if_pos hc]
      simp only [List.any_eq_true, decide_eq_true_eq] at hc
      exact iff_of_true rfl (Or.inl hc)
    · rw [if_neg hc]
      simp only [List.any_eq_true, decide_eq_true_eq] at hc
      push_neg at hc
      have hleft : ¬(∃ w ∈ INTERRUPT_WORDS, 2 ≤ (pySplit text).count w.data) := by
        intro ⟨w, hw, h2⟩
        exact absurd h2 (by exact_mod_cast Nat.not_le.mpr (hc w hw))
      rw [or_iff_right hleft]
      simp only [List.any_eq_true, List.mem_filter, Bool.not_eq_true]
      constructor
      · rintro ⟨w, ⟨hwmem, hwsub⟩, hwin⟩
        exact ⟨w, hwmem, by simpa using hwsub, contains_eq_mem.mp hwin⟩
      · rintro ⟨w, hwmem, hwsub, hwin⟩
        exact ⟨w, ⟨hwmem, by rw [hwsub]; rfl⟩, contains_eq_mem.mpr hwin⟩

/-- Claim C6: when the current TTS text contains a configured skip word (so
is_skip_allowed is false), contains_skip_phrase rejects every text. -/
theorem C6_skip_blocked (lastTtsText text : String)
    (h : is_skip_allowed lastTtsText = false) :
    contains_skip_phrase lastTtsText text = false := by
  unfold contains_skip_phrase
  rw [h]
  by_cases ht : text = ""
  · rw [if_pos ht]
  · rw [if_neg ht]
    rfl

/-- Witness for C6: the TTS text contains the skip word skip, so even the
bare utterance skip is not detected. -/
theorem C6_skip_blocked_witness :
    is_skip_allowed "we can skip the details" = false ∧
    contains_skip_phrase "we can skip the details" "skip" = false :=
  ⟨by decide, C6_skip_blocked "we can skip the details" "skip" (by decide)⟩

/-- Claim C8: a buffer whose peak absolute amplitude is below the configured
minimum energy threshold is rejected before the transcription service is
called: the result is none and the service-invoked flag is false, for every
possible service. -/
theorem C8_energy_gate (service : List Int → Option String) (minEnergy : Int)
    (audioData : List Int) (h : npMaxAbs audioData < minEnergy) :
    transcribe_audio_sync service minEnergy audioData = (none, false) := by
  unfold transcribe_audio_sync
  rw [if_pos h]

/-- Witness for C8: a buffer with peak 800 under the default threshold 1500
yields no text and no service call. -/
theorem C8_energy_gate_witness :
    npMaxAbs [800, -800, 123] < DEFAULT_MIN_AUDIO_ENERGY ∧
    transcribe_audio_sync (fun _ => some "hello") DEFAULT_MIN_AUDIO_ENERGY
      [800, -800, 123] = (none, false) :=
  ⟨by decide, C8_energy_gate (fun _ => some "hello") DEFAULT_MIN_AUDIO_ENERGY
      [800, -800, 123] (by decide)⟩

/-- Claim C9: a voice-activity-detector exception is treated as speech by the
normal listening branch but as non-speech by the TTS-interrupt branch, and
with no detector available the listening branch treats every frame as
speech. -/
theorem C9_vad_fail_open {α : Type} (d : α → VadOutcome) (frame : α)
    (h : d frame = .failure) :
    vadListening (some d) frame = true ∧ vadTtsBranch (some d) frame = false ∧
    ∀ f2 : α, vadListening (none : Option (α → VadOutcome)) f2 = true := by
  refine ⟨?_, ?_, fun f2 => rfl⟩ <;> simp [vadListening, vadTtsBranch, h]

/-- Witness for C9 with an always-failing detector on Nat frames. -/
theorem C9_vad_fail_open_witness :
    vadListening (some (fun _ : Nat => VadOutcome.failure)) 0 = true ∧
    vadTtsBranch (some (fun _ : Nat => VadOutcome.failure)) 0 = false ∧
    vadListening (none : Option (Nat → VadOutcome)) 7 = true :=
  ⟨(C9_vad_fail_open (fun _ => .failure) 0 rfl).1,
   (C9_vad_fail_open (fun _ => .failure) 0 rfl).2.1,
   (C9_vad_fail_open (fun _ => .failure) 0 rfl).2.2 7⟩

/-- Claim C10: with LastSpokenTimestamp at its initial and post-TTS-cleanup
value 0, the 10-second recency test compares the (large) current wall-clock
time against 0, so is_echo is false for every transcription and every TTS
text. -/
theorem C10_zero_timestamp (lastTtsText text : String) (nowMs : Int)
    (h : 10000 < nowMs) :
    is_echo lastTtsText text nowMs 0 = false := by
  unfold is_echo
  split
  all_goals first
    | rfl
    | rw [if_pos (show (10000 : Int) < nowMs - 0 by omega)]

/-- Witness for C10: a transcription identical to the spoken text, which
would be echo right after playback, is not echo once the timestamp has been
reset to 0 (current epoch time far exceeds 10 seconds). -/
theorem C10_zero_timestamp_witness :
    is_echo "hello there" "hello there" 1700000000000 0 = false :=
  C10_zero_timestamp "hello there" "hello there" 1700000000000 (by decide)

theorem listenStep_ends_iff (s : ListenState) (isSpeech : Bool) (nowMs : Int) :
    (listenStep s isSpeech nowMs).2 = true ↔
      (s.speechDetected = true ∧ isSpeech = false ∧
       MIN_RECORDING_DURATION_MS ≤ nowMs - s.recordingStartMs ∧
       SILENCE_THRESHOLD_MS ≤ s.silenceDurationMs + VAD_CHUNK_DURATION_MS ∧
       INITIAL_SILENCE_GRACE_PERIOD_MS ≤ nowMs - s.recordingStartMs) := by
  obtain ⟨sd, rs, sil, ch⟩ := s
  cases sd <;> cases isSpeech
  · simp [listenStep]
  · simp [listenStep]
  · unfold listenStep
    rw [if_neg (by simp : ¬((!true) = true)), if_neg (by simp : ¬(false = true))]
    dsimp only
    split
    next hcond => exact iff_of_true rfl ⟨rfl, rfl, hcond.1, hcond.2.1, hcond.2.2⟩
    next hcond =>
      refine iff_of_false (by simp) ?_
      rintro ⟨-, -, h3, h4, h5⟩
      exact hcond ⟨h3, h4, h5⟩
  · simp [listenStep]

/-- Claim C5: while accumulating an utterance, silence never ends the
utterance when the elapsed recording duration is below the 0.3 s minimum;
the utterance ends on silence exactly when recording is in progress, the
frame is non-speech, the duration is at least 300 ms, the accumulated
consecutive silence reaches 1000 ms, and the 1000 ms initial grace period
since recording start has elapsed. -/
theorem C5_min_recording_duration (s : ListenState) (isSpeech : Bool) (nowMs : Int) :
    ((listenStep s isSpeech nowMs).2 = true ↔
      (s.speechDetected = true ∧ isSpeech = false ∧
       300 ≤ nowMs - s.recordingStartMs ∧
       1000 ≤ s.silenceDurationMs + 30 ∧
       1000 ≤ nowMs - s.recordingStartMs)) ∧
    (nowMs - s.recordingStartMs < 300 → (listenStep s isSpeech nowMs).2 = false) := by
  have hiff := listenStep_ends_iff s isSpeech nowMs
  constructor
  · exact hiff
  · intro hlt
    cases hb : (listenStep s isSpeech nowMs).2
    · rfl
    · obtain ⟨-, -, h3, -, -⟩ := hiff.mp hb
      exact absurd h3 (by unfold MIN_RECORDING_DURATION_MS; omega)

/-- Witness for C5: a recording 2000 ms old with 970 ms of prior silence
plus the current 30 ms silent frame ends; a recording only 200 ms old with
plenty of silence does not. -/
theorem C5_min_recording_duration_witness :
    (listenStep ⟨true, 0, 970, 10⟩ false 2000).2 = true ∧
    (listenStep ⟨true, 0, 5000, 3⟩ false 200).2 = false :=
  ⟨(C5_min_recording_duration ⟨true, 0, 970, 10⟩ false 2000).1.mpr
      ⟨rfl, rfl, by decide, by decide, by decide⟩,
   (C5_min_recording_duration ⟨true, 0, 5000, 3⟩ false 200).2 (by decide)⟩

/-- Claim C7: while TTS is playing, only frames classified as speech are
appended to the interrupt-check buffer (a non-speech frame leaves the buffer
unchanged), and the buffer is transcribed and checked for interrupt or skip
words exactly when the accumulated speech-only buffer reaches at least
300 ms (ten 30 ms chunks) and at least 2000 ms have elapsed since TTS
playback started. -/
theorem C7_interrupt_check_gate (audioChunks : Nat) (isSpeechChunk : Bool)
    (ttsStartMs nowMs : Int) (hstart : 0 < ttsStartMs) :
    ((ttsInterruptStep audioChunks isSpeechChunk ttsStartMs nowMs).2 = true ↔
      (300 ≤ (((audioChunks + if isSpeechChunk then 1 else 0 : Nat)) : Int) * 30 ∧
       2000 ≤ nowMs - ttsStartMs)) ∧
    ((ttsInterruptStep audioChunks isSpeechChunk ttsStartMs nowMs).2 = false →
      (ttsInterruptStep audioChunks isSpeechChunk ttsStartMs nowMs).1 =
        audioChunks + (if isSpeechChunk then 1 else 0)) := by
  constructor
  · unfold ttsInterruptStep VAD_CHUNK_DURATION_MS
    rw [if_pos hstart]
    cases isSpeechChunk
    · simp only [if_neg (show ¬(false = true) by simp), Nat.add_zero]
      split
      next hcond => exact iff_of_true rfl hcond
      next hcond => exact iff_of_false (by simp) hcond
    · rw [if_pos (rfl : true = true), if_pos (rfl : true = true)]
      dsimp only
      split
      next hcond => exact iff_of_true rfl hcond
      next hcond => exact iff_of_false (by simp) hcond
  · unfold ttsInterruptStep VAD_CHUNK_DURATION_MS
    rw [if_pos hstart]
    cases isSpeechChunk
    · simp only [if_neg (show ¬(false = true) by simp), Nat.add_zero]
      split
      next => intro h2; exact absurd h2 (by simp)
      next => intro h2; rfl
    · rw [if_pos (rfl : true = true), if_pos (rfl : true = true)]
      dsimp only
      split
      next => intro h2; exact absurd h2 (by simp)
      next => intro h2; rfl

/-- Witness for C7: the tenth speech chunk at 2000 ms elapsed triggers the
check; a non-speech frame with only three accumulated chunks neither
triggers the check nor grows the buffer. -/
theorem C7_interrupt_check_gate_witness :
    (ttsInterruptStep 9 true 1000 3000).2 = true ∧
    (ttsInterruptStep 3 false 1000 1500).2 = false ∧
    (ttsInterruptStep 3 false 1000 1500).1 = 3 :=
  ⟨(C7_interrupt_check_gate 9 true 1000 3000 (by decide)).1.mpr
      ⟨by decide, by decide⟩,
   by decide,
   (C7_interrupt_check_gate 3 false 1000 1500 (by decide)).2 (by decide)⟩

/-- The echo classification exactly as claim C3 words it, for comparison
with is_echo from the source: the transcription has more than 3
whitespace-split words (tokens, with multiplicity) and more than half of
those tokens occur among the words of the spoken text.  Non-empty inputs are
assumed by the claim. -/
def echoClaimC3 (lastTtsText text : String) (nowMs lastTtsTimeMs : Int) : Bool :=
  let textLower := stripL (lowerL text.data)
  let ttsLower := stripL (lowerL lastTtsText.data)
  decide (nowMs - lastTtsTimeMs ≤ 10000) &&
    (isSubstr textLower ttsLower || isSubstr ttsLower textLower ||
      (decide (3 < (splitWsAux [] textLower).length) &&
       decide ((splitWsAux [] textLower).length <
         2 * ((splitWsAux [] textLower).filter
           (fun w => (splitWsAux [] ttsLower).contains w)).length)))

/-- Counterexample to claim C3 as stated: the transcription has four
whitespace-split words (go, go, stop, now) but only three distinct ones;
every token occurs among the words of the spoken text, so the claim
classifies it as echo 2 seconds after TTS, while the source is_echo gates
the overlap branch on the number of DISTINCT words (length of the Python
set), which here is 3, and returns false. -/
theorem C3_echo_counterexample :
    echoClaimC3 "now stop go home ok" "go go stop now" 2000 0 = true ∧
    is_echo "now stop go home ok" "go go stop now" 2000 0 = false := by decide

theorem is_echo_eq_true_iff (lastTtsText text : String) (nowMs lastMs : Int)
    (htts : lastTtsText ≠ "") (htext : text ≠ "") :
    (is_echo lastTtsText text nowMs lastMs = true ↔
      (nowMs - lastMs ≤ 10000 ∧
        (isSubstr (stripL (lowerL text.data)) (stripL (lowerL lastTtsText.data)) = true ∨
         isSubstr (stripL (lowerL lastTtsText.data)) (stripL (lowerL text.data)) = true ∨
         (3 < ((splitWsAux [] (stripL (lowerL text.data))).dedup).length ∧
          ((splitWsAux [] (stripL (lowerL text.data))).dedup).length <
            2 * (((splitWsAux [] (stripL (lowerL text.data))).dedup).filter
              (fun w => ((splitWsAux [] (stripL (lowerL lastTtsText.data))).dedup).contains w)).length)))) := by
  unfold is_echo
  rw [if_neg (show ¬((decide (lastTtsText = "") || decide (text = "")) = true) by
    simp [htts, htext])]
  by_cases ht : 10000 < nowMs - lastMs
  · rw [if_pos ht]
    refine iff_of_false (by simp) ?_
    rintro ⟨h1, -⟩
    omega
  · rw [if_neg ht]
    dsimp only
    by_cases hsub : (isSubstr (stripL (lowerL text.data)) (stripL (lowerL lastTtsText.data)) ||
        isSubstr (stripL (lowerL lastTtsText.data)) (stripL (lowerL text.data))) = true
    · rw [if_pos hsub]
      refine iff_of_true rfl ⟨by omega, ?_⟩
      rcases Bool.or_eq_true_iff.mp hsub with h | h
      · exact Or.inl h
      · exact Or.inr (Or.inl h)
    · rw [if_neg hsub]
      have hsub2 := Bool.or_eq_false_iff.mp (Bool.not_eq_true _ |>.mp hsub)
      by_cases hlen : 3 < ((splitWsAux [] (stripL (lowerL text.data))).dedup).length
      · rw [if_pos hlen]
        rw [decide_eq_true_iff]
        constructor
        · intro h
          exact ⟨by omega, Or.inr (Or.inr ⟨hlen, h⟩)⟩
        · rintro ⟨-, h | h | ⟨-, h⟩⟩
          · rw [h] at hsub2; exact absurd hsub2.1 (by simp)
          · rw [h] at hsub2; exact absurd hsub2.2 (by simp)
          · exact h
      · rw [if_neg hlen]
        refine iff_of_false (by simp) ?_
        rintro ⟨-, h | h | ⟨h3, -⟩⟩
        · rw [h] at hsub2; exact absurd hsub2.1 (by simp)
        · rw [h] at hsub2; exact absurd hsub2.2 (by simp)
        · exact hlen h3

/-- Claim C3 amended: for every non-empty transcription and non-empty
LastSpokenText, is_echo classifies the transcription as echo if and only if
the TTS finished speaking within the last 10 seconds and either one
lowercased stripped text is a substring of the other, or the transcription
has more than 3 DISTINCT words and more than half of its distinct words also
occur among the distinct words of the spoken text; in particular, a
transcription that is a substring of the spoken text arriving 2 seconds
after TTS finished is classified as echo, and any transcription arriving 15
seconds after is not. -/
theorem C3_echo_contract (lastTtsText text : String) (nowMs lastMs : Int)
    (htts : lastTtsText ≠ "") (htext : text ≠ "") :
    (is_echo lastTtsText text nowMs lastMs = true ↔
      (nowMs - lastMs ≤ 10000 ∧
        (isSubstr (stripL (lowerL text.data)) (stripL (lowerL lastTtsText.data)) = true ∨
         isSubstr (stripL (lowerL lastTtsText.data)) (stripL (lowerL text.data)) = true ∨
         (3 < ((splitWsAux [] (stripL (lowerL text.data))).dedup).length ∧
          ((splitWsAux [] (stripL (lowerL text.data))).dedup).length <
            2 * (((splitWsAux [] (stripL (lowerL text.data))).dedup).filter
              (fun w => ((splitWsAux [] (stripL (lowerL lastTtsText.data))).dedup).contains w)).length)))) ∧
    (isSubstr (stripL (lowerL text.data)) (stripL (lowerL lastTtsText.data)) = true →
      is_echo lastTtsText text (lastMs + 2000) lastMs = true) ∧
    is_echo lastTtsText text (lastMs + 15000) lastMs = false := by
  refine ⟨is_echo_eq_true_iff lastTtsText text nowMs lastMs htts htext, ?_, ?_⟩
  · intro hsub
    rw [is_echo_eq_true_iff lastTtsText text (lastMs + 2000) lastMs htts htext]
    exact ⟨by omega, Or.inl hsub⟩
  · cases hb : is_echo lastTtsText text (lastMs + 15000) lastMs
    · rfl
    · have h := (is_echo_eq_true_iff lastTtsText text (lastMs + 15000) lastMs htts htext).mp hb
      exact absurd h.1 (by omega)

/-- Witness for the amended C3, at the example of the spec (apostrophe
elided from the spoken text; the substring relation is unaffected): the
transcription is echo 2 seconds after TTS finished and not echo 15 seconds
after. -/
theorem C3_echo_contract_witness :
    is_echo "ive updated the configuration file for you"
      "updated the configuration file" 2000 0 = true ∧
    is_echo "ive updated the configuration file for you"
      "updated the configuration file" 15000 0 = false :=
  ⟨(C3_echo_contract "ive updated the configuration file for you"
      "updated the configuration file" 0 0 (by decide) (by decide)).2.1 (by decide),
   (C3_echo_contract "ive updated the configuration file for you"
      "updated the configuration file" 0 0 (by decide) (by decide)).2.2⟩

/-- Claim C4: clean_command applied to the sanitized utterance
"uh [music] hey samantha turn on dark mode that<apos>s all" yields exactly
"hey samantha turn on dark mode that<apos>s all": the bracketed sound tag is
stripped, everything before the first wake-word occurrence is discarded,
everything after the first stop-phrase occurrence is truncated with the stop
phrase itself retained, and whitespace is collapsed. -/
theorem C4_clean_command_roundtrip :
    clean_command (sanitize_whisper_text c4Utterance) = c4Expected := by decide
